import Mathlib

/-!
Verification of the conversation-analysis pipeline of the sales-coach hooks
(`useSalesCoach` / `useFileUploadSalesCoach`).  Times and scores that are
JavaScript numbers are modelled as exact rationals (`ℚ`); integer results of
`Math.round` are modelled as `ℤ` via `jsRound` (`Math.round x = ⌊x + 1/2⌋`).
Optional fields (`emotion?`, `sentiment?`) are modelled as `Option String`.
-/

namespace SalesCoach

/-- A Gemini analysis result for one text fragment (source interface
`LiveSegment`): `timestamp` marks when the source fragment started. -/
structure LiveSegment where
  text : String
  emotion : Option String
  sentiment : Option String
  timestamp : ℚ
deriving DecidableEq

/-- A transcript event from the Azure diarization stream (source interface
`AzureSpeakerSegment`).  The reserved word `end` is written `«end»`. -/
structure AzureSpeakerSegment where
  speakerId : String
  text : String
  start : ℚ
  «end» : ℚ
deriving DecidableEq

/-- A merged segment (source interface `CombinedSegment`). -/
structure CombinedSegment where
  speaker : String
  text : String
  emotion : Option String
  sentiment : Option String
  start : ℚ
  «end» : ℚ
deriving DecidableEq

/-- The search in `mergeSegments` for the Gemini segment attached to one
Azure segment: `geminiSegmentsRef.current.find(geminiSeg =>
Math.abs(geminiSeg.timestamp - azureSegment.start) < 2)`. -/
def findMatchingGemini (azureSegment : AzureSpeakerSegment)
    (geminiSegments : List LiveSegment) : Option LiveSegment :=
  geminiSegments.find? (fun geminiSeg =>
    decide (|geminiSeg.timestamp - azureSegment.start| < 2))

/-- Source `mergeSegments` of `useSalesCoach` / `useFileUploadSalesCoach`: one
combined segment is pushed per Azure segment, in order, copying speaker,
text, start and end; emotion and sentiment come from the matching Gemini
segment when one is found (`matchingGemini?.emotion`,
`matchingGemini?.sentiment`). -/
def mergeSegments (azureSegments : List AzureSpeakerSegment)
    (geminiSegments : List LiveSegment) : List CombinedSegment :=
  azureSegments.map (fun azureSegment =>
    let matchingGemini := findMatchingGemini azureSegment geminiSegments
    { speaker := azureSegment.speakerId
      text := azureSegment.text
      emotion := match matchingGemini with | some g => g.emotion | none => none
      sentiment := match matchingGemini with | some g => g.sentiment | none => none
      start := azureSegment.start
      «end» := azureSegment.«end» })

/-- The event-derived part of a combined segment: everything except the
enrichment fields `emotion` and `sentiment`. -/
def coreOf (c : CombinedSegment) : String × String × ℚ × ℚ :=
  (c.speaker, c.text, c.start, c.«end»)

/-- The same projection of a transcript event. -/
def eventCoreOf (a : AzureSpeakerSegment) : String × String × ℚ × ℚ :=
  (a.speakerId, a.text, a.start, a.«end»)

/-- C6: each run of the merge produces exactly one combined segment per
transcript event, in event order, copying speaker, text, start and end
unchanged; changing the pool of received Gemini results can only alter the
emotion and sentiment fields, never the number, order or event-derived
fields of the segments. -/
theorem mergeSegments_one_per_event (azureSegments : List AzureSpeakerSegment)
    (geminiSegments geminiSegments2 : List LiveSegment) :
    (mergeSegments azureSegments geminiSegments).length = azureSegments.length ∧
    (∀ i : ℕ, ((mergeSegments azureSegments geminiSegments)[i]?).map coreOf
      = (azureSegments[i]?).map eventCoreOf) ∧
    (∀ i : ℕ, ((mergeSegments azureSegments geminiSegments)[i]?).map coreOf
      = ((mergeSegments azureSegments geminiSegments2)[i]?).map coreOf) := by
  refine ⟨List.length_map _ _, fun i => ?_, fun i => ?_⟩ <;>
    simp only [mergeSegments, List.getElem?_map, Option.map_map] <;>
    cases azureSegments[i]? <;> simp [coreOf, eventCoreOf]

/-- Splitting lemma for `List.find?`: a found element satisfies the predicate
and everything before it in the list fails it. -/
theorem find?_eq_some_append {α : Type} {p : α → Bool} :
    ∀ {l : List α} {a : α}, l.find? p = some a →
      p a = true ∧ ∃ l1 l2, l = l1 ++ a :: l2 ∧ ∀ b ∈ l1, p b = false := by
  intro l
  induction l with
  | nil => intro a h; simp [List.find?] at h
  | cons x xs ih =>
    intro a h
    rw [List.find?_cons] at h
    by_cases hx : p x = true
    · rw [hx] at h
      simp only [Option.some.injEq] at h
      subst h
      exact ⟨hx, [], xs, rfl, by simp⟩
    · rw [Bool.not_eq_true] at hx
      rw [hx] at h
      obtain ⟨hpa, l1, l2, hsplit, hfail⟩ := ih h
      refine ⟨hpa, x :: l1, l2, by simp [hsplit], ?_⟩
      intro b hb
      rcases List.mem_cons.mp hb with hb | hb
      · subst hb; exact hx
      · exact hfail b hb

/-- C1 counterexample: two Gemini results lie within the 2-second tolerance
of the event start (10): one at timestamp 11 (distance 1) received first,
one at timestamp 10 (distance 0) received second.  The merge attaches the
first received one, not the nearest: the combined segment gets emotion
`joy`, although the `calm` result is strictly nearer. -/
theorem mergeSegments_nearest_counterexample :
    1 < (([⟨"hello", some "joy", some "positive", 11⟩,
           ⟨"hello", some "calm", some "neutral", 10⟩] : List LiveSegment).filter
          (fun g => decide (|g.timestamp - (10 : ℚ)| < 2))).length ∧
    findMatchingGemini ⟨"Guest-1", "hello", 10, 12⟩
        [⟨"hello", some "joy", some "positive", 11⟩,
         ⟨"hello", some "calm", some "neutral", 10⟩]
      = some ⟨"hello", some "joy", some "positive", 11⟩ ∧
    |(10 : ℚ) - 10| < |(11 : ℚ) - 10| ∧
    (mergeSegments [⟨"Guest-1", "hello", 10, 12⟩]
        [⟨"hello", some "joy", some "positive", 11⟩,
         ⟨"hello", some "calm", some "neutral", 10⟩]).map (fun c => c.emotion)
      = [some "joy"] := by
  have h1 : decide (|(11 : ℚ) - 10| < 2) = true := decide_eq_true (by norm_num)
  have h2 : decide (|(10 : ℚ) - 10| < 2) = true := decide_eq_true (by norm_num)
  refine ⟨?_, ?_, by norm_num, ?_⟩
  · simp [List.filter, h1, h2]
  · simp [findMatchingGemini, List.find?_cons, h1]
  · simp [mergeSegments, findMatchingGemini, List.find?_cons, h1]

/-- C1 amended: the Gemini result attached to an event is the first one, in
received-pool order, whose timestamp lies within the 2-second tolerance of
the event start — not necessarily the nearest.  Every pool element before
the attached one is outside the tolerance. -/
theorem findMatchingGemini_first_within (azureSegment : AzureSpeakerSegment)
    (pool : List LiveSegment) (g : LiveSegment)
    (h : findMatchingGemini azureSegment pool = some g) :
    |g.timestamp - azureSegment.start| < 2 ∧
    ∃ l1 l2, pool = l1 ++ g :: l2 ∧
      ∀ b ∈ l1, ¬(|b.timestamp - azureSegment.start| < 2) := by
  obtain ⟨hpa, l1, l2, hsplit, hfail⟩ := find?_eq_some_append h
  refine ⟨of_decide_eq_true hpa, l1, l2, hsplit, fun b hb => ?_⟩
  exact of_decide_eq_false (hfail b hb)

/-- Witness for `findMatchingGemini_first_within` at a concrete pool. -/
theorem findMatchingGemini_first_within_witness :
    |(11 : ℚ) - (10 : ℚ)| < 2 ∧
    ∃ l1 l2, ([⟨"hello", some "joy", some "positive", 11⟩] : List LiveSegment)
        = l1 ++ (⟨"hello", some "joy", some "positive", 11⟩ : LiveSegment) :: l2 ∧
      ∀ b ∈ l1, ¬(|b.timestamp - (10 : ℚ)| < 2) :=
  findMatchingGemini_first_within ⟨"Guest-1", "hello", 10, 12⟩
    [⟨"hello", some "joy", some "positive", 11⟩]
    ⟨"hello", some "joy", some "positive", 11⟩
    (by
      have h1 : decide (|(11 : ℚ) - 10| < 2) = true := decide_eq_true (by norm_num)
      simp [findMatchingGemini, List.find?_cons, h1])

/-- JavaScript string truthiness, used for `if (seg.sentiment)` and
`if (parsed.feedback)`: `undefined` and the empty string are falsy. -/
def optStringTruthy : Option String → Bool
  | none => false
  | some s => s != ""

/-- The result of `JSON.parse` on a Gemini per-fragment analysis reply,
when parsing succeeds.  The three fields of the requested JSON object. -/
structure GeminiReply where
  emotion : Option String
  sentiment : Option String
  feedback : Option String
deriving DecidableEq

/-- The mutable state touched by `analyzeTextWithGemini`: the pool of Gemini
segments and the live feedback list. -/
structure CoachState where
  geminiSegments : List LiveSegment
  realtimeFeedback : List String
deriving DecidableEq

/-- The response-handling step of `analyzeTextWithGemini`: `parsed` is the
outcome of `JSON.parse` on the stripped reply (`none` models a parse
failure, caught by the inner `catch`).  On success the parsed fields are
pushed and, when `parsed.feedback` is truthy, the feedback list becomes
`[parsed.feedback, ...prev].slice(0, 5)`.  On failure the fragment is
pushed with `emotion`/`sentiment` undefined and the feedback list is left
alone; in both cases `mergeSegments` is then re-run on the new pool. -/
def handleGeminiReply (text : String) (timestamp : ℚ)
    (parsed : Option GeminiReply) (st : CoachState) : CoachState :=
  match parsed with
  | some p =>
      let st1 : CoachState :=
        { st with geminiSegments := st.geminiSegments
            ++ [{ text := text, emotion := p.emotion, sentiment := p.sentiment,
                  timestamp := timestamp }] }
      if optStringTruthy p.feedback then
        { st1 with realtimeFeedback :=
            ((p.feedback.getD "") :: st1.realtimeFeedback).take 5 }
      else st1
  | none =>
      { st with geminiSegments := st.geminiSegments
          ++ [{ text := text, emotion := none, sentiment := none,
                timestamp := timestamp }] }

/-- C7: when the per-fragment reply fails JSON parsing, the fragment is
still appended to the Gemini pool with emotion and sentiment undefined, the
live feedback list is unchanged, and the subsequent re-merge still yields
one combined segment per transcript event (the handler is a total function:
the parse failure is absorbed, no exception reaches the caller). -/
theorem handleGeminiReply_parse_failure (text : String) (timestamp : ℚ)
    (st : CoachState) (azureSegments : List AzureSpeakerSegment) :
    (handleGeminiReply text timestamp none st).geminiSegments
      = st.geminiSegments
        ++ [{ text := text, emotion := none, sentiment := none,
              timestamp := timestamp }] ∧
    (handleGeminiReply text timestamp none st).realtimeFeedback
      = st.realtimeFeedback ∧
    (mergeSegments azureSegments
        (handleGeminiReply text timestamp none st).geminiSegments).length
      = azureSegments.length := by
  exact ⟨rfl, rfl, List.length_map _ _⟩

/-- JavaScript `Math.round`: round half up, `Math.round x = ⌊x + 0.5⌋`. -/
def jsRound (q : ℚ) : ℤ := ⌊q + 1/2⌋

/-- JavaScript truncation toward zero, the `trunc` underlying the `%`
remainder operator. -/
def jsTrunc (q : ℚ) : ℤ := if 0 ≤ q then ⌊q⌋ else ⌈q⌉

/-- JavaScript `%`: remainder with the sign of the dividend,
`a % b = a - b * trunc(a / b)`. -/
def jsMod (a b : ℚ) : ℚ := a - b * (jsTrunc (a / b) : ℚ)

/-- JavaScript `padStart(2, '0')`. -/
def padTwo (s : String) : String :=
  if 2 ≤ s.length then s else String.mk (List.replicate (2 - s.length) '0') ++ s

/-- Source `formatTime` of the hooks: `Math.floor(seconds / 60)` minutes,
`Math.floor(seconds % 60)` seconds padded to two digits. -/
def formatTime (seconds : ℚ) : String :=
  let mins : ℤ := ⌊seconds / 60⌋
  let secs : ℤ := ⌊jsMod seconds 60⌋
  toString mins ++ ":" ++ padTwo (toString secs)

/-- One point of the sentiment-over-time series. -/
structure GraphPoint where
  time : String
  sentiment : ℤ
deriving DecidableEq

/-- The ternary of the graph generators:
`sentiment === "positive" ? 80 : sentiment === "neutral" ? 60 : 40`. -/
def sentimentScore (s : Option String) : ℤ :=
  if s = some "positive" then 80 else if s = some "neutral" then 60 else 40

/-- The anchor point pushed first by `generateSentimentGraph`. -/
def anchorPoint : GraphPoint := { time := "0:00", sentiment := 50 }

/-- The loop of `generateSentimentGraph` (down-sampled variant of
`useSalesCoach` iteration `part_003` and `useFileUploadSalesCoach`), over
the indexed segment list.  `rev` is the `points` array in reverse (its head
is `points[points.length - 1]`), `cum` is `cumulativeSentiment`, `cnt` is
`segmentCount`.  A point is pushed when
`(i % 2 === 0 || points.length === 1)` and then
`(points.length === 1 || Math.abs(currentAvg - lastPoint.sentiment) > 10)`. -/
def sentimentGraphLoop : List (ℕ × CombinedSegment) → List GraphPoint → ℤ → ℕ
    → List GraphPoint
  | [], rev, _, _ => rev.reverse
  | (i, seg) :: rest, rev, cum, cnt =>
    if optStringTruthy seg.sentiment then
      let score := sentimentScore seg.sentiment
      let cum2 := cum + score
      let cnt2 := cnt + 1
      if i % 2 = 0 ∨ rev.length = 1 then
        let currentAvg : ℤ := jsRound ((cum2 : ℚ) / (cnt2 : ℚ))
        let lastPoint := rev.headD anchorPoint
        if rev.length = 1 ∨ 10 < |currentAvg - lastPoint.sentiment| then
          sentimentGraphLoop rest
            ({ time := formatTime seg.start, sentiment := currentAvg } :: rev)
            cum2 cnt2
        else sentimentGraphLoop rest rev cum2 cnt2
      else sentimentGraphLoop rest rev cum2 cnt2
    else sentimentGraphLoop rest rev cum cnt

/-- Source `generateSentimentGraph` (down-sampled variant): pushes the `("0:00", 50)`
anchor, then runs the emission loop over the indexed segments. -/
def generateSentimentGraph (segments : List CombinedSegment) : List GraphPoint :=
  sentimentGraphLoop segments.enum [anchorPoint] 0 0

/-- The emission gate of `sentimentGraphLoop`, rewritten as a single
condition (the amended reading of the down-sampling rule): a point is
emitted when only the anchor has been emitted so far, or when the overall
segment index is even AND the running average moved by more than 10. -/
def sentimentGraphLoopAmended : List (ℕ × CombinedSegment) → List GraphPoint → ℤ → ℕ
    → List GraphPoint
  | [], rev, _, _ => rev.reverse
  | (i, seg) :: rest, rev, cum, cnt =>
    if optStringTruthy seg.sentiment then
      let score := sentimentScore seg.sentiment
      let cum2 := cum + score
      let cnt2 := cnt + 1
      let currentAvg : ℤ := jsRound ((cum2 : ℚ) / (cnt2 : ℚ))
      let lastPoint := rev.headD anchorPoint
      if rev.length = 1 ∨ (i % 2 = 0 ∧ 10 < |currentAvg - lastPoint.sentiment|) then
        sentimentGraphLoopAmended rest
          ({ time := formatTime seg.start, sentiment := currentAvg } :: rev)
          cum2 cnt2
      else sentimentGraphLoopAmended rest rev cum2 cnt2
    else sentimentGraphLoopAmended rest rev cum cnt

/-- The amended emission rule packaged as a generator. -/
def generateSentimentGraphAmended (segments : List CombinedSegment) : List GraphPoint :=
  sentimentGraphLoopAmended segments.enum [anchorPoint] 0 0

/-- Modelled from the claim for comparison: after the anchor a point is
emitted whenever the running cumulative average differs from the last
emitted point by more than 10, OR at every second sentiment-bearing
segment (parity of the count of sentiment-bearing segments, disjunction of
the two triggers). -/
def sentimentGraphLoopClaimed : List CombinedSegment → List GraphPoint → ℤ → ℕ
    → List GraphPoint
  | [], rev, _, _ => rev.reverse
  | seg :: rest, rev, cum, cnt =>
    if optStringTruthy seg.sentiment then
      let score := sentimentScore seg.sentiment
      let cum2 := cum + score
      let cnt2 := cnt + 1
      let currentAvg : ℤ := jsRound ((cum2 : ℚ) / (cnt2 : ℚ))
      let lastPoint := rev.headD anchorPoint
      if 10 < |currentAvg - lastPoint.sentiment| ∨ cnt2 % 2 = 0 then
        sentimentGraphLoopClaimed rest
          ({ time := formatTime seg.start, sentiment := currentAvg } :: rev)
          cum2 cnt2
      else sentimentGraphLoopClaimed rest rev cum2 cnt2
    else sentimentGraphLoopClaimed rest rev cum cnt

/-- The emission rule exactly as the claim states it, as a generator. -/
def generateSentimentGraphClaimed (segments : List CombinedSegment) : List GraphPoint :=
  sentimentGraphLoopClaimed segments [anchorPoint] 0 0

/-- The two gate formulations agree pointwise, so the loops agree. -/
theorem sentimentGraphLoop_eq_amended :
    ∀ (l : List (ℕ × CombinedSegment)) (rev : List GraphPoint) (cum : ℤ) (cnt : ℕ),
      sentimentGraphLoop l rev cum cnt = sentimentGraphLoopAmended l rev cum cnt := by
  intro l
  induction l with
  | nil => intro rev cum cnt; rfl
  | cons p rest ih =>
    obtain ⟨i, seg⟩ := p
    intro rev cum cnt
    by_cases ht : optStringTruthy seg.sentiment
    · by_cases h1 : rev.length = 1
      · simp [sentimentGraphLoop, sentimentGraphLoopAmended, ht, h1, ih]
      · by_cases h2 : i % 2 = 0
        · by_cases h3 : 10 < |jsRound (((cum + sentimentScore seg.sentiment : ℤ) : ℚ)
              / (((cnt + 1 : ℕ)) : ℚ)) - (rev.headD anchorPoint).sentiment|
          · simp [sentimentGraphLoop, sentimentGraphLoopAmended, ht, h1, h2, h3, ih]
          · simp [sentimentGraphLoop, sentimentGraphLoopAmended, ht, h1, h2, h3, ih]
        · simp [sentimentGraphLoop, sentimentGraphLoopAmended, ht, h1, h2, ih]
    · simp [sentimentGraphLoop, sentimentGraphLoopAmended, ht, ih]

/-- C4 amended: the generated series equals the one produced by the amended
rule — after the anchor, the first sentiment-bearing segment always emits a
point; afterwards a point is emitted exactly when the overall segment index
is even AND the running cumulative average differs from the last emitted
point by more than 10 (a conjunction, keyed to overall index parity, not a
disjunction keyed to the sentiment-bearing count). -/
theorem generateSentimentGraph_eq_amended (segments : List CombinedSegment) :
    generateSentimentGraph segments = generateSentimentGraphAmended segments :=
  sentimentGraphLoop_eq_amended segments.enum [anchorPoint] 0 0

/-- C4 counterexample: a positive segment at index 0 followed by a negative
segment at index 1.  At the second sentiment-bearing segment the running
average is 60 and the last emitted point is 80, so both claimed triggers
fire (the difference 20 exceeds 10, and it is the second sentiment-bearing
segment).  The claimed rule therefore emits a third point, but the code
emits nothing there, because the overall segment index 1 is odd: the code
produces 2 points, the claimed rule 3. -/
theorem generateSentimentGraph_claimed_counterexample :
    (generateSentimentGraph
        [⟨"A", "great", none, some "positive", 0, 10⟩,
         ⟨"B", "bad", none, some "negative", 30, 40⟩]).length = 2 ∧
    (generateSentimentGraphClaimed
        [⟨"A", "great", none, some "positive", 0, 10⟩,
         ⟨"B", "bad", none, some "negative", 30, 40⟩]).length = 3 ∧
    generateSentimentGraph
        [⟨"A", "great", none, some "positive", 0, 10⟩,
         ⟨"B", "bad", none, some "negative", 30, 40⟩]
      ≠ generateSentimentGraphClaimed
        [⟨"A", "great", none, some "positive", 0, 10⟩,
         ⟨"B", "bad", none, some "negative", 30, 40⟩] := by
  have ht1 : optStringTruthy (some "positive") = true := rfl
  have ht2 : optStringTruthy (some "negative") = true := rfl
  have hs1 : sentimentScore (some "positive") = 80 := rfl
  have hs2 : sentimentScore (some "negative") = 40 := rfl
  have hjr : jsRound (80 : ℚ) = 80 := Int.floor_eq_iff.mpr (by norm_num)
  have hcode : (generateSentimentGraph
      [⟨"A", "great", none, some "positive", 0, 10⟩,
       ⟨"B", "bad", none, some "negative", 30, 40⟩]).length = 2 := by
    norm_num [generateSentimentGraph, sentimentGraphLoop, ht1, ht2, List.enum]
  have hclaim : (generateSentimentGraphClaimed
      [⟨"A", "great", none, some "positive", 0, 10⟩,
       ⟨"B", "bad", none, some "negative", 30, 40⟩]).length = 3 := by
    norm_num [generateSentimentGraphClaimed, sentimentGraphLoopClaimed, ht1, ht2,
      hs1, hs2, hjr, anchorPoint]
  refine ⟨hcode, hclaim, fun h => ?_⟩
  rw [h, hclaim] at hcode
  exact absurd hcode (by norm_num)

/-- The loop only pushes points in front of the reversed accumulator, so the
accumulator stays non-empty and keeps its last element (the anchor). -/
theorem sentimentGraphLoop_shape :
    ∀ (l : List (ℕ × CombinedSegment)) (rev : List GraphPoint) (cum : ℤ) (cnt : ℕ),
      rev ≠ [] →
      ∃ rev2, sentimentGraphLoop l rev cum cnt = rev2.reverse ∧ rev2 ≠ [] ∧
        rev2.getLast? = rev.getLast? := by
  intro l
  induction l with
  | nil => exact fun rev cum cnt h => ⟨rev, rfl, h, rfl⟩
  | cons p rest ih =>
    obtain ⟨i, seg⟩ := p
    intro rev cum cnt h
    obtain ⟨r, rs, hrev⟩ := List.exists_cons_of_ne_nil h
    subst hrev
    by_cases ht : optStringTruthy seg.sentiment
    · by_cases h1 : i % 2 = 0 ∨ rs = []
      · by_cases h2 : rs = [] ∨
            10 < |jsRound (((cum : ℚ) + ((sentimentScore seg.sentiment : ℤ) : ℚ))
              / ((cnt : ℚ) + 1)) - r.sentiment|
        · obtain ⟨rev2, heq, hne, hlast⟩ := ih
            ({ time := formatTime seg.start,
               sentiment := jsRound (((cum : ℚ)
                 + ((sentimentScore seg.sentiment : ℤ) : ℚ)) / ((cnt : ℚ) + 1)) }
              :: r :: rs)
            (cum + sentimentScore seg.sentiment) (cnt + 1) (by simp)
          refine ⟨rev2, ?_, hne, ?_⟩
          · simpa [sentimentGraphLoop, ht, h1, h2] using heq
          · rw [hlast, List.getLast?_cons_cons]
        · obtain ⟨rev2, heq, hne, hlast⟩ :=
            ih (r :: rs) (cum + sentimentScore seg.sentiment) (cnt + 1) (by simp)
          exact ⟨rev2, by simpa [sentimentGraphLoop, ht, h1, h2] using heq, hne, hlast⟩
      · obtain ⟨rev2, heq, hne, hlast⟩ :=
          ih (r :: rs) (cum + sentimentScore seg.sentiment) (cnt + 1) (by simp)
        exact ⟨rev2, by simpa [sentimentGraphLoop, ht, h1] using heq, hne, hlast⟩
    · obtain ⟨rev2, heq, hne, hlast⟩ := ih (r :: rs) cum cnt (by simp)
      exact ⟨rev2, by simpa [sentimentGraphLoop, ht] using heq, hne, hlast⟩

/-- C8 amended, proved for the down-sampled generator: for every finalized
segment sequence, including a single-segment transcript, the series is
non-empty and its first point is the `("0:00", 50)` anchor. -/
theorem generateSentimentGraph_starts_with_anchor (segments : List CombinedSegment) :
    generateSentimentGraph segments ≠ [] ∧
    (generateSentimentGraph segments).head?
      = some { time := "0:00", sentiment := 50 } := by
  obtain ⟨rev2, heq, hne, hlast⟩ :=
    sentimentGraphLoop_shape segments.enum [anchorPoint] 0 0 (by simp)
  rw [generateSentimentGraph, heq]
  constructor
  · simpa using hne
  · rw [List.head?_reverse, hlast]; rfl

/-- The other `generateSentimentGraph` in the repository
(`useSalesCoach.tsx`, every-third-segment variant): no anchor is pushed;
points are sampled at indices 0, 3, 6, … with the raw ternary score. -/
def generateSentimentGraphEveryThird (segments : List CombinedSegment) : List GraphPoint :=
  (segments.enum.filter (fun p => p.1 % 3 == 0)).map
    (fun p => { time := formatTime p.2.start, sentiment := sentimentScore p.2.sentiment })

/-- C8 counterexample: the every-third-segment generator cited by the claim
does not start with the anchor.  On a single segment starting at 5 seconds
with no sentiment, its series is `[("0:05", 40)]`, whose first point is not
`("0:00", 50)` (and on an empty transcript its series is empty). -/
theorem generateSentimentGraph_anchor_counterexample :
    (generateSentimentGraphEveryThird
        [⟨"Speaker A", "hi", none, none, 5, 6⟩]).head?
      ≠ some { time := "0:00", sentiment := 50 } ∧
    (generateSentimentGraphEveryThird
        [⟨"Speaker A", "hi", none, none, 5, 6⟩]).head?
      = some { time := "0:05", sentiment := 40 } ∧
    generateSentimentGraphEveryThird [] = [] := by
  have hm : (⌊(5 : ℚ) / 60⌋ : ℤ) = 0 := Int.floor_eq_iff.mpr (by norm_num)
  have hmod : jsMod 5 60 = 5 := by
    rw [jsMod, jsTrunc, if_pos (by norm_num : (0 : ℚ) ≤ 5 / 60), hm]
    norm_num
  have hs : (⌊(5 : ℚ)⌋ : ℤ) = 5 := Int.floor_eq_iff.mpr (by norm_num)
  have hft : formatTime 5 = "0:05" := by
    simp only [formatTime, hmod, hm, hs]
    rfl
  refine ⟨?_, ?_, rfl⟩ <;>
    simp [generateSentimentGraphEveryThird, List.enum, List.filter, hft,
      sentimentScore]

/-- Split a character list at every whitespace character (the effect of
JavaScript `split(/\s+/)` up to empty pieces, which every caller filters
away by a length test). -/
def splitWsAux : List Char → List Char → List (List Char)
  | [], cur => [cur.reverse]
  | c :: rest, cur =>
    if c.isWhitespace then cur.reverse :: splitWsAux rest []
    else splitWsAux rest (c :: cur)

/-- Whitespace tokenization of a character list. -/
def splitWs (cs : List Char) : List (List Char) := splitWsAux cs []

/-- Source `seg.text.split(/\s+/).filter(word => word.length > 0).length`: the word
count of one segment text. -/
def wordCount (text : String) : ℕ :=
  ((splitWs text.data).filter (fun w => 0 < w.length)).length

/-- Source `totalWords` of `calculateMetrics`: summed word counts. -/
def totalWordsOf (segments : List CombinedSegment) : ℕ :=
  (segments.map (fun seg => wordCount seg.text)).sum

/-- Source `totalDuration` of `calculateMetrics`: the end offset of the last
segment, or 60 for an empty transcript. -/
def totalDurationOf (segments : List CombinedSegment) : ℚ :=
  match segments.getLast? with
  | some last => last.«end»
  | none => 60

/-- Source `wordsPerMinute = (totalWords / totalDuration) * 60`.  (In JavaScript a
zero duration with a nonzero word count gives `Infinity`; in `ℚ` division
by zero gives 0, so that degenerate transcript falls into the neutral
branch below.) -/
def wordsPerMinuteOf (segments : List CombinedSegment) : ℚ :=
  ((totalWordsOf segments : ℚ) / totalDurationOf segments) * 60

/-- The engagement computation of `calculateMetrics`: 50 unless
`wordsPerMinute > 0`, else `Math.round(20 + normalized * 75)` with
`normalized = Math.min(1, Math.max(0, (wpm - 80) / (200 - 80)))`. -/
def engagementScoreOf (segments : List CombinedSegment) : ℤ :=
  let wordsPerMinute := wordsPerMinuteOf segments
  if 0 < wordsPerMinute then
    let minWpm : ℚ := 80
    let maxWpm : ℚ := 200
    let normalized := min 1 (max 0 ((wordsPerMinute - minWpm) / (maxWpm - minWpm)))
    jsRound (20 + normalized * 75)
  else 50

/-- The per-speaker time accumulation of `calculateMetrics`
(`speakerTime.set(seg.speaker, (speakerTime.get(seg.speaker) || 0) + d)`),
as an association list in Map insertion order. -/
def addSpeakerTime : List (String × ℚ) → String → ℚ → List (String × ℚ)
  | [], sp, d => [(sp, d)]
  | (k, v) :: rest, sp, d =>
    if k = sp then (k, v + d) :: rest else (k, v) :: addSpeakerTime rest sp d

/-- The full `speakerTime` map after the fold over the transcript. -/
def speakerTimesOf (segments : List CombinedSegment) : List (String × ℚ) :=
  segments.foldl (fun m seg => addSpeakerTime m seg.speaker (seg.«end» - seg.start)) []

/-- The talk-ratio computation of `calculateMetrics` (`part_003` variant):
`"50:50"` unless there are at least two speakers and a positive total time,
else the rounded percentage shares of the first two speakers. -/
def talkRatioOf (segments : List CombinedSegment) : String :=
  match speakerTimesOf segments with
  | s0 :: s1 :: rest =>
    let totalTime := ((s0 :: s1 :: rest).map (fun p => p.2)).sum
    if 0 < totalTime then
      toString (jsRound (s0.2 / totalTime * 100)) ++ ":"
        ++ toString (jsRound (s1.2 / totalTime * 100))
    else "50:50"
  | _ => "50:50"

/-- The sentiment totals `(totalSentimentScore, sentimentCount)` of
`calculateMetrics`. -/
def sentimentTotalsOf (segments : List CombinedSegment) : ℤ × ℕ :=
  segments.foldl
    (fun acc seg =>
      if seg.sentiment = some "positive" then (acc.1 + 80, acc.2 + 1)
      else if seg.sentiment = some "neutral" then (acc.1 + 60, acc.2 + 1)
      else if seg.sentiment = some "negative" then (acc.1 + 40, acc.2 + 1)
      else acc)
    (0, 0)

/-- Source `avgSentiment`: the rounded mean over sentiment-bearing segments, or 50
when no segment carries a sentiment. -/
def avgSentimentOf (segments : List CombinedSegment) : ℤ :=
  let totals := sentimentTotalsOf segments
  if 0 < totals.2 then jsRound ((totals.1 : ℚ) / (totals.2 : ℚ)) else 50

/-- The record returned by `calculateMetrics` (`part_003` variant); the
numeric fields are stringified, the remaining fields are the constants of
the source. -/
structure RecordingStats where
  talkToListenRatio : String
  sentimentScoreAvg : String
  engagementPercentage : String
  questionCount : String
  strengthsCount : String
  missedOpportunitiesCount : String
  fillerWordsCount : String
  keywordsDetected : String
  competitorMentions : String
  objectionsDetected : String
deriving DecidableEq

/-- Source `calculateMetrics` of `part_003`. -/
def calculateMetrics (segments : List CombinedSegment) : RecordingStats :=
  { talkToListenRatio := talkRatioOf segments
    sentimentScoreAvg := toString (avgSentimentOf segments)
    engagementPercentage := toString (engagementScoreOf segments)
    questionCount := "0"
    strengthsCount := "0"
    missedOpportunitiesCount := "0"
    fillerWordsCount := "0"
    keywordsDetected := "\x7b\x7d"
    competitorMentions := "\x7b\x7d"
    objectionsDetected := "[]" }

/-- C5: whenever words-per-minute is positive the engagement score lies in
[20, 95]; when words-per-minute is zero it is exactly 50.  (The score is the
value stringified into `calculateMetrics segments |>.engagementPercentage`.) -/
theorem engagementScoreOf_bounds (segments : List CombinedSegment) :
    (0 < wordsPerMinuteOf segments →
      20 ≤ engagementScoreOf segments ∧ engagementScoreOf segments ≤ 95) ∧
    (wordsPerMinuteOf segments = 0 → engagementScoreOf segments = 50) ∧
    (calculateMetrics segments).engagementPercentage
      = toString (engagementScoreOf segments) := by
  refine ⟨fun hpos => ?_, fun hzero => ?_, rfl⟩
  · rw [engagementScoreOf]
    simp only [if_pos hpos]
    set n : ℚ := min 1 (max 0 ((wordsPerMinuteOf segments - 80) / (200 - 80))) with hn
    have hn0 : 0 ≤ n := le_min (by norm_num) (le_max_left 0 _)
    have hn1 : n ≤ 1 := min_le_left 1 _
    constructor
    · rw [jsRound]
      refine Int.le_floor.mpr ?_
      push_cast
      nlinarith
    · rw [jsRound]
      have h2 : (20 : ℚ) + n * 75 + 1/2 < 96 := by nlinarith
      have := Int.floor_lt.mpr (by push_cast; linarith : (20 : ℚ) + n * 75 + 1/2 < ((96 : ℤ) : ℚ))
      omega
  · rw [engagementScoreOf]
    simp [hzero]

/-- Witness for `engagementScoreOf_bounds`: a three-word segment spoken over
30 seconds gives 6 words per minute (positive, score within bounds); the
empty transcript gives words-per-minute 0 and score 50. -/
theorem engagementScoreOf_bounds_witness :
    (20 ≤ engagementScoreOf [⟨"A", "hello there friend", none, none, 0, 30⟩] ∧
      engagementScoreOf [⟨"A", "hello there friend", none, none, 0, 30⟩] ≤ 95) ∧
    engagementScoreOf [] = 50 := by
  have hw : wordsPerMinuteOf [⟨"A", "hello there friend", none, none, 0, 30⟩] = 6 := by
    have : totalWordsOf [⟨"A", "hello there friend", none, none, 0, 30⟩] = 3 := by decide
    rw [wordsPerMinuteOf, this, totalDurationOf]
    norm_num
  refine ⟨(engagementScoreOf_bounds
      [⟨"A", "hello there friend", none, none, 0, 30⟩]).1 (by rw [hw]; norm_num), ?_⟩
  exact (engagementScoreOf_bounds []).2.1 (by rw [wordsPerMinuteOf, totalWordsOf]; norm_num)

/-- One part of a proposed split (`{speaker, text}` in the correction
response). -/
structure SplitPart where
  speaker : String
  text : String
deriving DecidableEq

/-- One proposed split (`{originalIndex, segments}`). -/
structure SplitSpec where
  originalIndex : ℕ
  segments : List SplitPart
deriving DecidableEq

/-- One proposed speaker reassignment (`{index, correctedSpeaker}`). -/
structure Correction where
  index : ℕ
  correctedSpeaker : String
deriving DecidableEq

/-- The parsed correction response of `correctSpeakerIdentification`. -/
structure CorrectionResponse where
  corrections : List Correction
  splits : List SplitSpec
deriving DecidableEq

/-- The `newSegments` computation of one split: the original `[start, end)`
span is cut into `parts.length` pieces of width
`duration / split.segments.length`, each part keeping the parent emotion
and sentiment and taking its stated speaker and text, in text order. -/
def splitParts (originalSeg : CombinedSegment) (parts : List SplitPart) :
    List CombinedSegment :=
  let duration := originalSeg.«end» - originalSeg.start
  let timePerSegment := duration / (parts.length : ℚ)
  parts.enum.map (fun q =>
    { speaker := q.2.speaker
      text := q.2.text
      emotion := originalSeg.emotion
      sentiment := originalSeg.sentiment
      start := originalSeg.start + (q.1 : ℚ) * timePerSegment
      «end» := originalSeg.start + ((q.1 : ℚ) + 1) * timePerSegment })

/-- Source `correctedSegments.splice(split.originalIndex, 1, ...newSegments)`.  An
out-of-range index makes the JavaScript code read `undefined.end` and
throw, and the enclosing catch then discards every correction; no claim
concerns that path, so it is modelled as the identity on the list. -/
def applyOneSplit (segs : List CombinedSegment) (split : SplitSpec) :
    List CombinedSegment :=
  match segs[split.originalIndex]? with
  | none => segs
  | some originalSeg =>
      segs.take split.originalIndex ++ splitParts originalSeg split.segments
        ++ segs.drop (split.originalIndex + 1)

/-- The descending order used by
`response.splits.sort((a, b) => b.originalIndex - a.originalIndex)`. -/
def splitDescOrder (a b : SplitSpec) : Prop := b.originalIndex ≤ a.originalIndex

instance : DecidableRel splitDescOrder := fun a b => Nat.decLe b.originalIndex a.originalIndex

instance : IsTotal SplitSpec splitDescOrder := ⟨fun a b => le_total b.originalIndex a.originalIndex⟩

instance : IsTrans SplitSpec splitDescOrder := ⟨fun _ _ _ h1 h2 => le_trans h2 h1⟩

/-- The split block of `correctSpeakerIdentification`: splits are applied
from the highest original index to the lowest.  JavaScript `sort` is
stable, and so is `insertionSort` with this order, so the Lean sort
computes the same processing order. -/
def applySplitsStage (segs : List CombinedSegment) (splits : List SplitSpec) :
    List CombinedSegment :=
  if 0 < splits.length then
    (List.insertionSort splitDescOrder splits).foldl applyOneSplit segs
  else segs

/-- The reassignment block of `correctSpeakerIdentification`:
`correctedSegments.map((seg, idx) => ...)` replaces the speaker of the
segment at position `idx` of the current (post-split) list when a
correction with `index === idx` exists. -/
def applyCorrectionsStage (segs : List CombinedSegment)
    (corrections : List Correction) : List CombinedSegment :=
  if 0 < corrections.length then
    segs.enum.map (fun q =>
      match corrections.find? (fun c => c.index == q.1) with
      | some c => { q.2 with speaker := c.correctedSpeaker }
      | none => q.2)
  else segs

/-- List-based prefix test for the substring search below. -/
def isPrefixList : List Char → List Char → Bool
  | [], _ => true
  | _ :: _, [] => false
  | a :: as, b :: bs => a == b && isPrefixList as bs

/-- List-based substring occurrence test (JavaScript `includes`). -/
def containsSub : List Char → List Char → Bool
  | [], needle => needle.isEmpty
  | c :: rest, needle => isPrefixList needle (c :: rest) || containsSub rest needle

/-- Source `seg.text.toLowerCase().includes(cue)` for the salesperson cues of the
residual fallback. -/
def isLikelySalesperson (text : String) : Bool :=
  let lower := text.data.map Char.toLower
  containsSub lower "can i".data || containsSub lower "let me".data
    || containsSub lower "our product".data || containsSub lower "we offer".data
    || containsSub lower "would you".data || containsSub lower "tell me about".data

/-- The first pass of the residual fallback: build the raw-label-to-role
map in first-appearance order, skipping labels already equal to a role. -/
def buildSpeakerMapping (segs : List CombinedSegment) : List (String × String) :=
  segs.foldl
    (fun m seg =>
      if seg.speaker = "Salesperson" ∨ seg.speaker = "Customer" then m
      else if (m.find? (fun p => p.1 == seg.speaker)).isSome then m
      else m ++ [(seg.speaker,
        if isLikelySalesperson seg.text then "Salesperson" else "Customer")])
    []

/-- The second pass of the residual fallback:
`speakerMapping.get(seg.speaker) || seg.speaker` for every segment whose
speaker is not already a role. -/
def applyRoleFallback (segs : List CombinedSegment) : List CombinedSegment :=
  let mapping := buildSpeakerMapping segs
  segs.map (fun seg =>
    if seg.speaker = "Salesperson" ∨ seg.speaker = "Customer" then seg
    else
      let fallback := ((mapping.find? (fun p => p.1 == seg.speaker)).map
        (fun p => p.2)).getD seg.speaker
      { seg with speaker := fallback })

/-- The application part of `correctSpeakerIdentification` on a
successfully parsed response: splits first (descending), then
reassignments, then the residual role fallback. -/
def applyCorrectionResponse (segments : List CombinedSegment)
    (response : CorrectionResponse) : List CombinedSegment :=
  applyRoleFallback
    (applyCorrectionsStage (applySplitsStage segments response.splits)
      response.corrections)

/-- Per-part width of a split. -/
def partWidth (seg : CombinedSegment) (parts : List SplitPart) : ℚ :=
  (seg.«end» - seg.start) / (parts.length : ℚ)

/-- Sum of the spans of the enumerated parts, each of width `t`. -/
theorem enumFrom_span_sum (s t : ℚ) :
    ∀ (n : ℕ) (ps : List SplitPart),
      ((List.enumFrom n ps).map (fun q : ℕ × SplitPart =>
          (s + ((q.1 : ℚ) + 1) * t) - (s + (q.1 : ℚ) * t))).sum
        = (ps.length : ℚ) * t := by
  intro n ps
  induction ps generalizing n with
  | nil => simp
  | cons p rest ih =>
    rw [show List.enumFrom n (p :: rest) = (n, p) :: List.enumFrom (n + 1) rest from rfl]
    rw [List.map_cons, List.sum_cons, ih (n + 1), List.length_cons]
    push_cast
    ring

/-- C2: a split of a segment into `k` parts divides its `[start, end)` span
into `k` equal width-`(end - start)/k` sub-intervals in text order (part
`i` takes `[start + i·w, start + (i+1)·w)` and the text and speaker of the
`i`-th stated part), and the spans of the `k` resulting segments sum to the
original `end - start`. -/
theorem splitParts_spec (seg : CombinedSegment) (parts : List SplitPart)
    (h : parts ≠ []) :
    (splitParts seg parts).length = parts.length ∧
    (∀ i : ℕ, (splitParts seg parts)[i]? = (parts[i]?).map (fun p =>
      { speaker := p.speaker, text := p.text, emotion := seg.emotion,
        sentiment := seg.sentiment,
        start := seg.start + (i : ℚ) * partWidth seg parts,
        «end» := seg.start + ((i : ℚ) + 1) * partWidth seg parts })) ∧
    (∀ c ∈ splitParts seg parts, c.«end» - c.start = partWidth seg parts) ∧
    ((splitParts seg parts).map (fun c => c.«end» - c.start)).sum
      = seg.«end» - seg.start := by
  have hlen : ((parts.length : ℚ)) ≠ 0 := by
    simpa using fun hc => h (List.length_eq_zero.mp hc)
  refine ⟨by simp [splitParts], fun i => ?_, fun c hc => ?_, ?_⟩
  · simp only [splitParts, List.getElem?_map, List.getElem?_enum, partWidth]
    cases parts[i]? <;> simp
  · simp only [splitParts, List.mem_map] at hc
    obtain ⟨q, hq, rfl⟩ := hc
    simp [partWidth]
    ring
  · rw [splitParts, List.map_map]
    have := enumFrom_span_sum seg.start
      ((seg.«end» - seg.start) / (parts.length : ℚ)) 0 parts
    rw [show parts.enum = List.enumFrom 0 parts from rfl]
    rw [show ((fun c : CombinedSegment => c.«end» - c.start) ∘ fun q : ℕ × SplitPart =>
      ({ speaker := q.2.speaker, text := q.2.text, emotion := seg.emotion,
         sentiment := seg.sentiment,
         start := seg.start + (q.1 : ℚ) * ((seg.«end» - seg.start) / (parts.length : ℚ)),
         «end» := seg.start + ((q.1 : ℚ) + 1) * ((seg.«end» - seg.start) / (parts.length : ℚ)) }
        : CombinedSegment))
      = fun q : ℕ × SplitPart =>
        (seg.start + ((q.1 : ℚ) + 1) * ((seg.«end» - seg.start) / (parts.length : ℚ)))
          - (seg.start + (q.1 : ℚ) * ((seg.«end» - seg.start) / (parts.length : ℚ))) from rfl]
    rw [this]
    field_simp

/-- Witness for `splitParts_spec`: splitting a `[0, 10)` segment into two
parts yields spans summing to `10 - 0`. -/
theorem splitParts_spec_witness :
    ((splitParts ⟨"Customer", "What product? It is a laptop.", none, none, 0, 10⟩
        [⟨"Customer", "What product?"⟩, ⟨"Salesperson", "It is a laptop."⟩]).map
        (fun c => c.«end» - c.start)).sum = (10 : ℚ) - 0 :=
  (splitParts_spec ⟨"Customer", "What product? It is a laptop.", none, none, 0, 10⟩
    [⟨"Customer", "What product?"⟩, ⟨"Salesperson", "It is a laptop."⟩]
    (by simp)).2.2.2

/-- Everything of a combined segment except its speaker. -/
def withoutSpeaker (c : CombinedSegment) :
    String × Option String × Option String × ℚ × ℚ :=
  (c.text, c.emotion, c.sentiment, c.start, c.«end»)

/-- C10: the reassignment stage changes only speaker fields — the number of
segments and, at every position, the text, emotion, sentiment, start and
end are identical before and after, for every correction list. -/
theorem applyCorrectionsStage_changes_only_speaker
    (segs : List CombinedSegment) (corrections : List Correction) :
    (applyCorrectionsStage segs corrections).length = segs.length ∧
    ∀ i : ℕ, ((applyCorrectionsStage segs corrections)[i]?).map withoutSpeaker
      = (segs[i]?).map withoutSpeaker := by
  rw [applyCorrectionsStage]
  by_cases hg : 0 < corrections.length
  · rw [if_pos hg]
    refine ⟨by simp, fun i => ?_⟩
    simp only [List.getElem?_map, List.getElem?_enum, Option.map_map]
    cases segs[i]? with
    | none => rfl
    | some seg =>
      simp only [Option.map, Function.comp_apply]
      cases hfind : corrections.find? (fun c => c.index == i) <;>
        simp [withoutSpeaker, hfind]
  · rw [if_neg hg]; exact ⟨rfl, fun i => rfl⟩

/-- C3 failing input: two segments, a split of segment 0 into two parts and
a reassignment addressed to index 1.  The Gemini prompt numbers the
original segments, so index 1 denotes the second original segment, but the
code resolves index 1 in the post-split list, where that position holds the
second part of the split of segment 0.  The reassignment therefore lands on
that part and the second original segment keeps its old speaker: the final
speakers are `["Customer", "Salesperson", "Customer"]` instead of the
intended `["Customer", "Salesperson", "Salesperson"]`. -/
theorem applyCorrectionResponse_postsplit_indexing :
    (applyCorrectionResponse
        [⟨"Customer", "What product? It is a laptop.", none, none, 0, 10⟩,
         ⟨"Customer", "I do not need it.", none, none, 10, 14⟩]
        { corrections := [⟨1, "Salesperson"⟩],
          splits := [⟨0, [⟨"Customer", "What product?"⟩,
            ⟨"Salesperson", "It is a laptop."⟩]⟩] }).map (fun c => c.speaker)
      = ["Customer", "Salesperson", "Customer"] ∧
    (applyCorrectionResponse
        [⟨"Customer", "What product? It is a laptop.", none, none, 0, 10⟩,
         ⟨"Customer", "I do not need it.", none, none, 10, 14⟩]
        { corrections := [⟨1, "Salesperson"⟩],
          splits := [⟨0, [⟨"Customer", "What product?"⟩,
            ⟨"Salesperson", "It is a laptop."⟩]⟩] }).map (fun c => c.speaker)
      ≠ ["Customer", "Salesperson", "Salesperson"] := by
  constructor
  · decide
  · decide

/-- The stop-word set of `extractKeywords`, verbatim from the source. -/
def stopWords : List String :=
  ["the", "a", "an", "and", "or", "but", "in", "on", "at", "to", "for",
   "of", "with", "is", "are", "was", "were", "be", "been", "being",
   "have", "has", "had", "do", "does", "did", "will", "would", "could",
   "should", "may", "might", "must", "can", "i", "you", "he", "she",
   "it", "we", "they", "them", "their", "this", "that", "these", "those",
   "am", "yes", "no", "not", "so", "if", "than", "as", "my", "your",
   "our", "me", "him", "her", "us", "what", "when", "where", "who",
   "why", "how", "all", "each", "every", "both", "few", "more", "most",
   "some", "such", "any", "very", "just", "about", "up", "out", "down",
   "there", "here", "now", "then", "well", "also", "too", "only", "even",
   "want", "need", "think", "know", "get", "got", "going", "go", "like",
   "really", "yeah", "okay", "ok", "um", "uh", "right"]

/-- The character replacement `replace(/[^\w\s]/g, ' ')`: characters that
are neither word characters (`[a-z0-9_]` after lower-casing) nor whitespace
become spaces. -/
def keepWordChar (c : Char) : Char :=
  if c.isAlphanum || c = '_' || c.isWhitespace then c else ' '

/-- The tokenization of `extractKeywords`: texts joined with spaces,
lower-cased, punctuation replaced by spaces, split at whitespace.  (The
empty pieces JavaScript `split(/\s+/)` avoids are removed downstream by the
length-2 filter, exactly as in the source.) -/
def transcriptTokens (segments : List CombinedSegment) : List String :=
  let fullText := String.intercalate " " (segments.map (fun seg => seg.text))
  (splitWs ((fullText.data.map Char.toLower).map keepWordChar)).map
    (fun cs => String.mk cs)

/-- The word filter of `extractKeywords`: at least two characters, not a
stop word, not purely numeric. -/
def keywordFilter (w : String) : Bool :=
  2 ≤ w.length && !(stopWords.contains w) && !(w.data.all Char.isDigit)

/-- Source `keywords[word] = (keywords[word] || 0) + 1` on an association list in
object-key insertion order (all keys here are non-index strings, so
JavaScript preserves insertion order). -/
def bumpCount : List (String × ℕ) → String → List (String × ℕ)
  | [], w => [(w, 1)]
  | (k, v) :: rest, w =>
    if k = w then (k, v + 1) :: rest else (k, v) :: bumpCount rest w

/-- The frequency map after the counting loop. -/
def countWords (ws : List String) : List (String × ℕ) := ws.foldl bumpCount []

/-- Source `Object.entries(keywords).filter(([, count]) => count >= 2)`. -/
def eligibleKeywordEntries (segments : List CombinedSegment) : List (String × ℕ) :=
  (countWords ((transcriptTokens segments).filter keywordFilter)).filter
    (fun p => 2 ≤ p.2)

/-- The descending-frequency order of `.sort(([, a], [, b]) => b - a)`. -/
def keywordOrder (p q : String × ℕ) : Prop := q.2 ≤ p.2

instance : DecidableRel keywordOrder := fun p q => Nat.decLe q.2 p.2

instance : IsTotal (String × ℕ) keywordOrder := ⟨fun p q => le_total q.2 p.2⟩

instance : IsTrans (String × ℕ) keywordOrder := ⟨fun _ _ _ h1 h2 => le_trans h2 h1⟩

/-- Source `extractKeywords`: eligible entries sorted by descending frequency
(JavaScript sort is stable and so is `insertionSort`), truncated to 30. -/
def extractKeywords (segments : List CombinedSegment) : List (String × ℕ) :=
  (List.insertionSort keywordOrder (eligibleKeywordEntries segments)).take 30

/-- The count recorded for `k` in the association map: the value at the
first pair with key `k`, or 0. -/
def lookup0 (m : List (String × ℕ)) (k : String) : ℕ :=
  match m.find? (fun p => p.1 == k) with
  | some p => p.2
  | none => 0

/-- Lemma: `bumpCount` increments exactly the looked-up count of the bumped word. -/
theorem lookup0_bumpCount (m : List (String × ℕ)) (w k : String) :
    lookup0 (bumpCount m w) k
      = if k = w then lookup0 m k + 1 else lookup0 m k := by
  induction m with
  | nil =>
    by_cases hkw : k = w
    · subst hkw; simp [bumpCount, lookup0, List.find?]
    · have hbk : (w == k) = false := by
        simp only [beq_eq_false_iff_ne]
        exact Ne.symm hkw
      simp [bumpCount, lookup0, List.find?, hbk, hkw]
  | cons a rest ih =>
    obtain ⟨k1, v1⟩ := a
    by_cases h1 : k1 = w
    · subst h1
      by_cases h2 : k = k1
      · subst h2
        simp [bumpCount, lookup0, List.find?_cons]
      · have hbk : (k1 == k) = false := by
          simp only [beq_eq_false_iff_ne]
          exact fun h => h2 h.symm
        simp [bumpCount, lookup0, List.find?_cons, hbk, h2]
    · by_cases h2 : k1 = k
      · subst h2
        simp [bumpCount, lookup0, List.find?_cons, h1]
      · have hbk : (k1 == k) = false := by
          simp only [beq_eq_false_iff_ne]
          exact h2
        simp only [bumpCount, if_neg h1]
        simp only [lookup0, List.find?_cons, hbk] at ih ⊢
        exact ih

/-- The keys of the map after a bump: unchanged when the word is present,
extended by the word otherwise. -/
theorem keys_bumpCount (m : List (String × ℕ)) (w : String) :
    (bumpCount m w).map Prod.fst
      = if w ∈ m.map Prod.fst then m.map Prod.fst else m.map Prod.fst ++ [w] := by
  induction m with
  | nil => simp [bumpCount]
  | cons a rest ih =>
    obtain ⟨k1, v1⟩ := a
    by_cases h1 : k1 = w
    · subst h1; simp [bumpCount]
    · simp only [bumpCount, if_neg h1, List.map_cons, ih]
      by_cases h2 : w ∈ rest.map Prod.fst <;>
        simp [h2, List.mem_cons, Ne.symm h1]

/-- Bumping preserves key distinctness. -/
theorem nodup_keys_bumpCount (m : List (String × ℕ)) (w : String)
    (h : (m.map Prod.fst).Nodup) : ((bumpCount m w).map Prod.fst).Nodup := by
  rw [keys_bumpCount]
  by_cases hw : w ∈ m.map Prod.fst
  · simpa [hw] using h
  · rw [if_neg hw]
    rw [List.nodup_append]
    refine ⟨h, by simp, ?_⟩
    intro a ha hb
    rw [List.mem_singleton] at hb
    exact hw (hb ▸ ha)

/-- The counting fold keeps keys distinct. -/
theorem nodup_keys_foldl_bumpCount (ws : List String) :
    ∀ (m : List (String × ℕ)), (m.map Prod.fst).Nodup →
      ((ws.foldl bumpCount m).map Prod.fst).Nodup := by
  induction ws with
  | nil => exact fun m h => h
  | cons w rest ih =>
    exact fun m h => ih (bumpCount m w) (nodup_keys_bumpCount m w h)

/-- The counting fold adds the occurrence count of each key. -/
theorem lookup0_foldl_bumpCount (ws : List String) :
    ∀ (m : List (String × ℕ)) (k : String),
      lookup0 (ws.foldl bumpCount m) k = lookup0 m k + ws.count k := by
  induction ws with
  | nil => simp
  | cons w rest ih =>
    intro m k
    rw [List.foldl_cons, ih (bumpCount m w) k, lookup0_bumpCount, List.count_cons]
    by_cases hkw : k = w
    · subst hkw; simp; omega
    · have hbk : (k == w) = false := by
        simp only [beq_eq_false_iff_ne]
        exact hkw
      simp [hkw, hbk]
      exact fun h => hkw h.symm

/-- With distinct keys, a member pair carries the looked-up value of its
key. -/
theorem mem_val_eq_lookup0 (m : List (String × ℕ))
    (h : (m.map Prod.fst).Nodup) (p : String × ℕ) (hp : p ∈ m) :
    p.2 = lookup0 m p.1 := by
  induction m with
  | nil => cases hp
  | cons a rest ih =>
    obtain ⟨k1, v1⟩ := a
    rcases List.mem_cons.mp hp with rfl | hmem
    · simp [lookup0, List.find?_cons]
    · have hk : k1 ≠ p.1 := by
        intro hkp
        have : p.1 ∈ rest.map Prod.fst := List.mem_map_of_mem Prod.fst hmem
        rw [List.map_cons, List.nodup_cons] at h
        exact h.1 (hkp ▸ this)
      have hbk : (k1 == p.1) = false := by simp [hk]
      rw [lookup0, List.find?_cons, hbk]
      exact ih (by rw [List.map_cons, List.nodup_cons] at h; exact h.2) hmem

/-- Each counted pair records the exact frequency of its key in the word
list. -/
theorem mem_countWords_val (ws : List String) (p : String × ℕ)
    (hp : p ∈ countWords ws) : p.2 = ws.count p.1 := by
  have h1 := mem_val_eq_lookup0 (countWords ws)
    (nodup_keys_foldl_bumpCount ws [] (by simp)) p hp
  rw [h1, countWords, lookup0_foldl_bumpCount]
  simp [lookup0, List.find?]

/-- C9: the keyword map contains no stop word, no token shorter than two
characters, no purely numeric token, and no token whose frequency in the
lower-cased punctuation-stripped transcript is below 2 (each entry records
that exact frequency); it has at most 30 entries, and they are the top
entries by frequency — every eligible entry left out has a frequency no
larger than any entry kept. -/
theorem extractKeywords_spec (segments : List CombinedSegment) :
    (extractKeywords segments).length ≤ 30 ∧
    (∀ p ∈ extractKeywords segments,
      p.1 ∉ stopWords ∧ 2 ≤ p.1.length ∧ ¬(p.1.data.all Char.isDigit = true) ∧
      p.2 = (transcriptTokens segments).count p.1 ∧ 2 ≤ p.2) ∧
    (∀ q ∈ eligibleKeywordEntries segments, q ∉ extractKeywords segments →
      ∀ p ∈ extractKeywords segments, q.2 ≤ p.2) := by
  have hperm := List.perm_insertionSort keywordOrder (eligibleKeywordEntries segments)
  have hsorted := List.sorted_insertionSort keywordOrder (eligibleKeywordEntries segments)
  refine ⟨List.length_take_le _ _, ?_, ?_⟩
  · intro p hp
    have hp1 : p ∈ List.insertionSort keywordOrder (eligibleKeywordEntries segments) :=
      List.mem_of_mem_take hp
    have hp2 : p ∈ eligibleKeywordEntries segments := hperm.mem_iff.mp hp1
    rw [eligibleKeywordEntries, List.mem_filter] at hp2
    obtain ⟨hmem, hcnt⟩ := hp2
    have hval : p.2 = ((transcriptTokens segments).filter keywordFilter).count p.1 :=
      mem_countWords_val _ p hmem
    have hge2 : 2 ≤ p.2 := by simpa using hcnt
    have hpos : 0 < ((transcriptTokens segments).filter keywordFilter).count p.1 := by
      omega
    have hmemf : p.1 ∈ (transcriptTokens segments).filter keywordFilter :=
      List.count_pos_iff.mp hpos
    have hfil : keywordFilter p.1 = true := (List.mem_filter.mp hmemf).2
    have hcount : p.2 = (transcriptTokens segments).count p.1 := by
      rw [hval]; exact List.count_filter hfil
    rw [keywordFilter] at hfil
    simp only [Bool.and_eq_true, decide_eq_true_eq, Bool.not_eq_true'] at hfil
    obtain ⟨⟨hlen, hstop⟩, hdig⟩ := hfil
    have hstop2 : p.1 ∉ stopWords := by
      simp only [List.contains, List.elem_eq_mem, decide_eq_false_iff_not] at hstop
      exact hstop
    exact ⟨hstop2, hlen, by simp [hdig], hcount, hge2⟩
  · intro q hq hqnot p hp
    have hq1 : q ∈ List.insertionSort keywordOrder (eligibleKeywordEntries segments) :=
      hperm.mem_iff.mpr hq
    have hsplit := List.take_append_drop 30
      (List.insertionSort keywordOrder (eligibleKeywordEntries segments))
    have hpair : List.Pairwise keywordOrder
        ((List.insertionSort keywordOrder (eligibleKeywordEntries segments)).take 30
          ++ (List.insertionSort keywordOrder (eligibleKeywordEntries segments)).drop 30) := by
      rw [hsplit]; exact hsorted
    rw [← hsplit] at hq1
    have hqd : q ∈ (List.insertionSort keywordOrder
        (eligibleKeywordEntries segments)).drop 30 := by
      rcases List.mem_append.mp hq1 with h | h
      · exact absurd h hqnot
      · exact h
    exact (List.pairwise_append.mp hpair).2.2 p hp q hqd

/-- Witness for `extractKeywords_spec`: on the one-segment transcript
`"Pricing pricing budget!"` the extracted map is `[("pricing", 2)]`; the
clauses instantiate at that entry. -/
theorem extractKeywords_spec_witness :
    "pricing" ∉ stopWords ∧ 2 ≤ ("pricing" : String).length ∧
    ¬(("pricing" : String).data.all Char.isDigit = true) ∧
    (2 : ℕ) = (transcriptTokens
      [⟨"A", "Pricing pricing budget!", none, none, 0, 9⟩]).count "pricing" ∧
    2 ≤ (2 : ℕ) :=
  (extractKeywords_spec [⟨"A", "Pricing pricing budget!", none, none, 0, 9⟩]).2.1
    ("pricing", 2) (by decide)

end SalesCoach
